import Mathlib

/-
Verification of the light-field operations in src/LightField.cpp
(LFFocalStack::apply, LFWarp::apply, LFPoint::apply).

Machine floats are modelled as exact rationals; C int casts and the
image/light-field layout are modelled explicitly below.
-/

/-- A C-style cast from a real value to int: truncation toward zero. -/
def cCastInt (q : ℚ) : ℤ :=
  if 0 ≤ q then ⌊q⌋ else ⌈q⌉

/-- Modelled from the spec: the clamp helper used by LFWarp::apply lives in a
header that is not among the sources; the spec says each coordinate is
clamped to its valid index range, i.e. forced into [lo, hi]. -/
def clampZ (a lo hi : ℤ) : ℤ :=
  min (max a lo) hi

/-- Modelled from the spec: the Image Buffer ("NewImage", external per spec
section 2) is a dense array addressed as (x, y, frame, channel), with width,
height, frame and channel extents. Values are rationals (exact floats). -/
structure NewImage where
  width : ℕ
  height : ℕ
  frames : ℕ
  channels : ℕ
  data : ℕ → ℕ → ℕ → ℕ → ℚ

/-- The dimensions of an image, used to state shape contracts. -/
structure ImageShape where
  width : ℕ
  height : ℕ
  frames : ℕ
  channels : ℕ
deriving DecidableEq

/-- Modelled from the spec: the NewImage constructor (its header is not among
the sources) takes (width, height, frames, channels). This order is pinned
down inside src/LightField.cpp itself: LFFocalStack::apply builds
`view(lf.xSize, lf.ySize, 1, channels)` and then reads `view(x, y, c)` for
`x < xSize, y < ySize`, and accumulates `out.frame(t) += view` into
`out(lf.xSize, lf.ySize, frames, channels)`, which is only shape-consistent
with this argument order. This function records the shape a constructor
call with the given arguments allocates. -/
def newImageShape (width height frames channels : ℕ) : ImageShape :=
  ⟨width, height, frames, channels⟩

/-- Modelled from the spec: the LightField view (its header LightField.h is
not among the sources) wraps an Image Buffer plus lenslet extents U, V. -/
structure LightField where
  image : NewImage
  uSize : ℕ
  vSize : ℕ

/-- Modelled from the spec: derived spatial width X = bufferWidth / U. -/
def LightField.xSize (lf : LightField) : ℕ :=
  lf.image.width / lf.uSize

/-- Modelled from the spec: derived spatial height Y = bufferHeight / V. -/
def LightField.ySize (lf : LightField) : ℕ :=
  lf.image.height / lf.vSize

/-- Modelled from the spec: the 4D accessor lf(x, y, u, v, c); the ray
(x, y, u, v) maps to the 2D buffer pixel (x*U + u, y*V + v) in frame 0. -/
def LightField.get (lf : LightField) (x y u v c : ℕ) : ℚ :=
  lf.image.data (x * lf.uSize + u) (y * lf.vSize + v) 0 c

/-- The depth samples visited by the focal-stack loop
`for (float alpha = minAlpha; alpha <= maxAlpha; alpha += deltaAlpha)`,
starting at the given alpha. The positivity of the step is required for
termination. -/
def alphaSamples (maxAlpha deltaAlpha : ℚ) (hd : 0 < deltaAlpha) (alpha : ℚ) :
    List ℚ :=
  if _h : alpha ≤ maxAlpha then
    alpha :: alphaSamples maxAlpha deltaAlpha hd (alpha + deltaAlpha)
  else
    []
termination_by (⌊(maxAlpha - alpha) / deltaAlpha⌋ + 1).toNat
decreasing_by
  have hx : (0:ℚ) ≤ (maxAlpha - alpha) / deltaAlpha :=
    div_nonneg (by linarith) hd.le
  have h1 : (maxAlpha - (alpha + deltaAlpha)) / deltaAlpha
      = (maxAlpha - alpha) / deltaAlpha - 1 := by
    field_simp
    ring
  have h2 : (0:ℤ) ≤ ⌊(maxAlpha - alpha) / deltaAlpha⌋ :=
    Int.le_floor.mpr (by exact_mod_cast hx)
  rw [h1, Int.floor_sub_one]
  omega

/-- The frame-counting loop of LFFocalStack::apply (lines 33-34): the number
of frames is the number of depth samples visited. -/
def focalFrameCount (minAlpha maxAlpha deltaAlpha : ℚ)
    (hd : 0 < deltaAlpha) : ℕ :=
  (alphaSamples maxAlpha deltaAlpha hd minAlpha).length

/-- The output allocation of LFFocalStack::apply (line 36):
`NewImage out(lf.xSize, lf.ySize, frames, lf.image.channels)`. -/
def LFFocalStack.outShape (lf : LightField) (minAlpha maxAlpha deltaAlpha : ℚ)
    (hd : 0 < deltaAlpha) : ImageShape :=
  newImageShape lf.xSize lf.ySize
    (focalFrameCount minAlpha maxAlpha deltaAlpha hd) lf.image.channels

lemma alphaSamples_length (maxAlpha deltaAlpha : ℚ) (hd : 0 < deltaAlpha) :
    ∀ (k : ℕ) (alpha : ℚ), alpha ≤ maxAlpha →
      (⌊(maxAlpha - alpha) / deltaAlpha⌋).toNat = k →
      (alphaSamples maxAlpha deltaAlpha hd alpha).length = k + 1 := by
  intro k
  induction k with
  | zero =>
    intro alpha hle hk
    have hx : (0:ℚ) ≤ (maxAlpha - alpha) / deltaAlpha :=
      div_nonneg (by linarith) hd.le
    have hfl : (0:ℤ) ≤ ⌊(maxAlpha - alpha) / deltaAlpha⌋ :=
      Int.le_floor.mpr (by exact_mod_cast hx)
    have hzero : ⌊(maxAlpha - alpha) / deltaAlpha⌋ = 0 := by omega
    have hlt : (maxAlpha - alpha) / deltaAlpha < 1 := by
      have := Int.lt_floor_add_one ((maxAlpha - alpha) / deltaAlpha)
      rw [hzero] at this
      simpa using this
    have hstop : ¬ (alpha + deltaAlpha ≤ maxAlpha) := by
      intro hc
      have : (1:ℚ) ≤ (maxAlpha - alpha) / deltaAlpha :=
        (one_le_div hd).mpr (by linarith)
      linarith
    rw [alphaSamples, dif_pos hle, alphaSamples, dif_neg hstop]
    simp
  | succ k ih =>
    intro alpha hle hk
    have hx : (0:ℚ) ≤ (maxAlpha - alpha) / deltaAlpha :=
      div_nonneg (by linarith) hd.le
    have hfl : (0:ℤ) ≤ ⌊(maxAlpha - alpha) / deltaAlpha⌋ :=
      Int.le_floor.mpr (by exact_mod_cast hx)
    have hksucc : ⌊(maxAlpha - alpha) / deltaAlpha⌋ = (k:ℤ) + 1 := by omega
    have hone : (1:ℚ) ≤ (maxAlpha - alpha) / deltaAlpha := by
      have : ((1:ℤ):ℚ) ≤ (maxAlpha - alpha) / deltaAlpha :=
        Int.le_floor.mp (by omega)
      simpa using this
    have hnext : alpha + deltaAlpha ≤ maxAlpha := by
      have := (one_le_div hd).mp hone
      linarith
    have hshift : (maxAlpha - (alpha + deltaAlpha)) / deltaAlpha
        = (maxAlpha - alpha) / deltaAlpha - 1 := by
      field_simp
      ring
    have hkrec : (⌊(maxAlpha - (alpha + deltaAlpha)) / deltaAlpha⌋).toNat = k := by
      rw [hshift, Int.floor_sub_one, hksucc]
      omega
    rw [alphaSamples, dif_pos hle]
    rw [List.length_cons, ih (alpha + deltaAlpha) hnext hkrec]

lemma alphaSamples_cons {maxAlpha deltaAlpha alpha : ℚ} {hd : 0 < deltaAlpha}
    (h : alpha ≤ maxAlpha) :
    alphaSamples maxAlpha deltaAlpha hd alpha
      = alpha :: alphaSamples maxAlpha deltaAlpha hd (alpha + deltaAlpha) := by
  rw [alphaSamples, dif_pos h]

lemma alphaSamples_nil {maxAlpha deltaAlpha alpha : ℚ} {hd : 0 < deltaAlpha}
    (h : ¬ alpha ≤ maxAlpha) :
    alphaSamples maxAlpha deltaAlpha hd alpha = [] := by
  rw [alphaSamples, dif_neg h]

lemma twoFifthsPos : (0:ℚ) < 2/5 := by norm_num

/-- A small concrete light field: an 8x4 buffer with one frame and three
channels, lenslet size 2x2, hence spatial size 4x2. -/
def lfDemo : LightField :=
  ⟨⟨8, 4, 1, 3, fun _ _ _ _ => 0⟩, 2, 2⟩

/-- C3: for minAlpha ≤ maxAlpha and deltaAlpha > 0, the focal stack output
has exactly floor((maxAlpha - minAlpha)/deltaAlpha) + 1 frames, one per
depth sample alpha = minAlpha, minAlpha+deltaAlpha, ... while
alpha ≤ maxAlpha. -/
theorem LFFocalStack.frame_count (lf : LightField)
    (minAlpha maxAlpha deltaAlpha : ℚ) (hd : 0 < deltaAlpha)
    (hle : minAlpha ≤ maxAlpha) :
    ((LFFocalStack.outShape lf minAlpha maxAlpha deltaAlpha hd).frames : ℤ)
      = ⌊(maxAlpha - minAlpha) / deltaAlpha⌋ + 1 := by
  have hx : (0:ℚ) ≤ (maxAlpha - minAlpha) / deltaAlpha :=
    div_nonneg (by linarith) hd.le
  have hfl : (0:ℤ) ≤ ⌊(maxAlpha - minAlpha) / deltaAlpha⌋ :=
    Int.le_floor.mpr (by exact_mod_cast hx)
  have hlen :=
    alphaSamples_length maxAlpha deltaAlpha hd
      (⌊(maxAlpha - minAlpha) / deltaAlpha⌋).toNat minAlpha hle rfl
  unfold LFFocalStack.outShape newImageShape focalFrameCount
  simp only [hlen]
  push_cast
  omega


/-- Witness for C3 at lfDemo, minAlpha = 0, maxAlpha = 1, deltaAlpha = 2/5:
the depth samples are 0, 2/5, 4/5, and the output has 3 frames. -/
theorem LFFocalStack.frame_count_witness :
    ((0:ℚ) < 2/5 ∧ (0:ℚ) ≤ 1) ∧
    ((LFFocalStack.outShape lfDemo 0 1 (2/5) twoFifthsPos).frames : ℤ)
      = ⌊((1:ℚ) - 0) / (2/5)⌋ + 1 ∧
    (LFFocalStack.outShape lfDemo 0 1 (2/5) twoFifthsPos).frames = 3 := by
  refine ⟨⟨twoFifthsPos, by norm_num⟩,
    LFFocalStack.frame_count lfDemo 0 1 (2/5) twoFifthsPos (by norm_num), ?_⟩
  show (alphaSamples 1 (2/5) twoFifthsPos 0).length = 3
  norm_num [alphaSamples_cons, alphaSamples_nil]

/-- The frame-processing loop of LFFocalStack::apply (lines 41-75): starting
from a given alpha and running frame index t, the list of (alpha, t) pairs
processed, where each pair accumulates all views into out.frame(t). -/
def focalIter (maxAlpha deltaAlpha : ℚ) (hd : 0 < deltaAlpha)
    (alpha : ℚ) (t : ℕ) : List (ℚ × ℕ) :=
  if _h : alpha ≤ maxAlpha then
    (alpha, t) :: focalIter maxAlpha deltaAlpha hd (alpha + deltaAlpha) (t + 1)
  else
    []
termination_by (⌊(maxAlpha - alpha) / deltaAlpha⌋ + 1).toNat
decreasing_by
  have hx : (0:ℚ) ≤ (maxAlpha - alpha) / deltaAlpha :=
    div_nonneg (by linarith) hd.le
  have h1 : (maxAlpha - (alpha + deltaAlpha)) / deltaAlpha
      = (maxAlpha - alpha) / deltaAlpha - 1 := by
    field_simp
    ring
  have h2 : (0:ℤ) ≤ ⌊(maxAlpha - alpha) / deltaAlpha⌋ :=
    Int.le_floor.mpr (by exact_mod_cast hx)
  rw [h1, Int.floor_sub_one]
  omega

lemma focalIter_cons {maxAlpha deltaAlpha alpha : ℚ} {hd : 0 < deltaAlpha}
    {t : ℕ} (h : alpha ≤ maxAlpha) :
    focalIter maxAlpha deltaAlpha hd alpha t
      = (alpha, t) :: focalIter maxAlpha deltaAlpha hd (alpha + deltaAlpha) (t + 1) := by
  rw [focalIter, dif_pos h]

lemma focalIter_nil {maxAlpha deltaAlpha alpha : ℚ} {hd : 0 < deltaAlpha}
    {t : ℕ} (h : ¬ alpha ≤ maxAlpha) :
    focalIter maxAlpha deltaAlpha hd alpha t = [] := by
  rw [focalIter, dif_neg h]

/-- Pair each list element with its running index, starting from t. -/
def withIdx : List ℚ → ℕ → List (ℚ × ℕ)
  | [], _ => []
  | a :: rest, t => (a, t) :: withIdx rest (t + 1)

lemma withIdx_map_fst : ∀ (l : List ℚ) (t : ℕ), (withIdx l t).map Prod.fst = l := by
  intro l
  induction l with
  | nil => intro t; rfl
  | cons a rest ih => intro t; simp [withIdx, ih]

lemma withIdx_map_snd : ∀ (l : List ℚ) (t : ℕ),
    (withIdx l t).map Prod.snd = List.range' t l.length := by
  intro l
  induction l with
  | nil => intro t; rfl
  | cons a rest ih => intro t; simp [withIdx, ih, List.range'_succ]

lemma focalIter_eq_withIdx (maxAlpha deltaAlpha : ℚ) (hd : 0 < deltaAlpha) :
    ∀ (n : ℕ) (alpha : ℚ) (t : ℕ),
      (⌊(maxAlpha - alpha) / deltaAlpha⌋ + 1).toNat ≤ n →
      focalIter maxAlpha deltaAlpha hd alpha t
        = withIdx (alphaSamples maxAlpha deltaAlpha hd alpha) t := by
  intro n
  induction n with
  | zero =>
    intro alpha t hn
    have hneg : ⌊(maxAlpha - alpha) / deltaAlpha⌋ + 1 ≤ 0 := by omega
    have hlt : (maxAlpha - alpha) / deltaAlpha < 0 := by
      have := Int.lt_floor_add_one ((maxAlpha - alpha) / deltaAlpha)
      calc (maxAlpha - alpha) / deltaAlpha
          < (⌊(maxAlpha - alpha) / deltaAlpha⌋ : ℚ) + 1 := this
        _ ≤ 0 := by exact_mod_cast hneg
    have hstop : ¬ alpha ≤ maxAlpha := by
      intro hc
      have : (0:ℚ) ≤ (maxAlpha - alpha) / deltaAlpha :=
        div_nonneg (by linarith) hd.le
      linarith
    rw [focalIter_nil hstop, alphaSamples_nil hstop]
    rfl
  | succ n ih =>
    intro alpha t hn
    by_cases h : alpha ≤ maxAlpha
    · have hx : (0:ℚ) ≤ (maxAlpha - alpha) / deltaAlpha :=
        div_nonneg (by linarith) hd.le
      have hfl : (0:ℤ) ≤ ⌊(maxAlpha - alpha) / deltaAlpha⌋ :=
        Int.le_floor.mpr (by exact_mod_cast hx)
      have hshift : (maxAlpha - (alpha + deltaAlpha)) / deltaAlpha
          = (maxAlpha - alpha) / deltaAlpha - 1 := by
        field_simp
        ring
      have hmeas : (⌊(maxAlpha - (alpha + deltaAlpha)) / deltaAlpha⌋ + 1).toNat ≤ n := by
        rw [hshift, Int.floor_sub_one]
        omega
      rw [focalIter_cons h, alphaSamples_cons h, withIdx, ih (alpha + deltaAlpha) (t + 1) hmeas]
    · rw [focalIter_nil h, alphaSamples_nil h]
      rfl

/-- C10: the frame-counting loop and the frame-processing loop of
LFFocalStack::apply visit the identical sequence of alpha values, the
running frame index t takes exactly the values 0 .. frames-1, and every
accumulation `out.frame(t) += view` targets an allocated output frame. -/
theorem LFFocalStack.loops_agree (lf : LightField)
    (minAlpha maxAlpha deltaAlpha : ℚ) (hd : 0 < deltaAlpha) :
    (focalIter maxAlpha deltaAlpha hd minAlpha 0).map Prod.fst
      = alphaSamples maxAlpha deltaAlpha hd minAlpha ∧
    (focalIter maxAlpha deltaAlpha hd minAlpha 0).map Prod.snd
      = List.range (focalFrameCount minAlpha maxAlpha deltaAlpha hd) ∧
    ∀ p ∈ focalIter maxAlpha deltaAlpha hd minAlpha 0,
      p.2 < (LFFocalStack.outShape lf minAlpha maxAlpha deltaAlpha hd).frames := by
  have hiter := focalIter_eq_withIdx maxAlpha deltaAlpha hd
    (⌊(maxAlpha - minAlpha) / deltaAlpha⌋ + 1).toNat minAlpha 0 le_rfl
  have hsnd : (focalIter maxAlpha deltaAlpha hd minAlpha 0).map Prod.snd
      = List.range (focalFrameCount minAlpha maxAlpha deltaAlpha hd) := by
    rw [hiter, withIdx_map_snd, List.range_eq_range']
    rfl
  refine ⟨by rw [hiter, withIdx_map_fst], hsnd, ?_⟩
  intro p hp
  have hmem : p.2 ∈ (focalIter maxAlpha deltaAlpha hd minAlpha 0).map Prod.snd :=
    List.mem_map_of_mem Prod.snd hp
  rw [hsnd, List.mem_range] at hmem
  exact hmem

/-- Witness for C10 at minAlpha = 0, maxAlpha = 1, deltaAlpha = 2/5: the
processing loop visits frame indices 0, 1, 2 and the same three alphas the
counting loop counted. -/
theorem LFFocalStack.loops_agree_witness :
    ((0:ℚ) < 2/5) ∧
    ((focalIter 1 (2/5) twoFifthsPos 0 0).map Prod.fst
        = alphaSamples 1 (2/5) twoFifthsPos 0 ∧
      (focalIter 1 (2/5) twoFifthsPos 0 0).map Prod.snd
        = List.range (focalFrameCount 0 1 (2/5) twoFifthsPos) ∧
      ∀ p ∈ focalIter 1 (2/5) twoFifthsPos 0 0,
        p.2 < (LFFocalStack.outShape lfDemo 0 1 (2/5) twoFifthsPos).frames) ∧
    (focalIter 1 (2/5) twoFifthsPos 0 0).map Prod.snd = [0, 1, 2] := by
  refine ⟨twoFifthsPos,
    LFFocalStack.loops_agree lfDemo 0 1 (2/5) twoFifthsPos, ?_⟩
  norm_num [focalIter_cons, focalIter_nil]

/-- The frame-counting loop of LFFocalStack::apply (line 34) run with
explicit fuel: it returns the loop's frame count if the loop exits within
the given number of iterations, and none otherwise. The code enters this
loop without any validation of deltaAlpha. -/
def focalCountFuel (maxAlpha deltaAlpha : ℚ) : ℕ → ℚ → ℕ → Option ℕ
  | 0, _, _ => none
  | fuel + 1, alpha, acc =>
    if alpha ≤ maxAlpha then
      focalCountFuel maxAlpha deltaAlpha fuel (alpha + deltaAlpha) (acc + 1)
    else
      some acc

/-- C8: LFFocalStack::apply performs no check on deltaAlpha; with
deltaAlpha ≤ 0 and the initial alpha ≤ maxAlpha, the frame-counting loop
never exits, however many iterations it is allowed, so the operation loops
instead of reporting a usage error and aborting. -/
theorem LFFocalStack.nonpositive_step_loops (maxAlpha deltaAlpha : ℚ)
    (hd : deltaAlpha ≤ 0) :
    ∀ (fuel : ℕ) (alpha : ℚ) (acc : ℕ), alpha ≤ maxAlpha →
      focalCountFuel maxAlpha deltaAlpha fuel alpha acc = none := by
  intro fuel
  induction fuel with
  | zero =>
    intro alpha acc _h
    rfl
  | succ n ih =>
    intro alpha acc h
    simp only [focalCountFuel, if_pos h]
    exact ih (alpha + deltaAlpha) (acc + 1) (by linarith)

/-- Witness for C8: with minAlpha = 0, maxAlpha = 1 and deltaAlpha = 0 the
counting loop is still running after 5 iterations (and, by the theorem,
after any number of iterations). -/
theorem LFFocalStack.nonpositive_step_loops_witness :
    ((0:ℚ) ≤ 0 ∧ (0:ℚ) ≤ 1) ∧ focalCountFuel 1 0 5 0 0 = none :=
  ⟨⟨le_refl 0, by norm_num⟩,
    LFFocalStack.nonpositive_step_loops 1 0 (le_refl 0) 5 0 0 (by norm_num)⟩

/-- A single-frame working image (x, y, channel), as used for the extracted
view inside LFFocalStack::apply. -/
abbrev ImgQ : Type := ℕ → ℕ → ℕ → ℚ

/-- View extraction in LFFocalStack::apply (lines 49-55):
view(x, y, c) = lf(x, y, u, v, c). -/
def extractView (lf : LightField) (u v : ℕ) : ImgQ :=
  fun x y c => lf.get x y u v c

/-- The shift step of LFFocalStack::apply (lines 57-61): the view is handed
to the external translate operator exactly when alpha*u != 0 or
alpha*v != 0 (the raw loop indices, not the centered offsets), with offsets
(u-(uSize-1)*0.5)*alpha and (v-(vSize-1)*0.5)*alpha. -/
def shiftStep (translate : ImgQ → ℚ → ℚ → ImgQ) (uSize vSize : ℕ)
    (alpha : ℚ) (u v : ℕ) (view : ImgQ) : ImgQ :=
  if alpha * (u:ℚ) ≠ 0 ∨ alpha * (v:ℚ) ≠ 0 then
    translate view (((u:ℚ) - ((uSize:ℚ) - 1) * (1/2)) * alpha)
      (((v:ℚ) - ((vSize:ℚ) - 1) * (1/2)) * alpha)
  else
    view

/-- The blur step of LFFocalStack::apply (lines 63-67): the view is handed
to the external Lanczos blur operator exactly when |alpha| > 1, with blur
radii |alpha|, |alpha| and temporal radius 0. -/
def blurStep (blur : ImgQ → ℚ → ℚ → ℚ → ImgQ) (alpha : ℚ) (view : ImgQ) : ImgQ :=
  if |alpha| > 1 then blur view |alpha| |alpha| 0 else view

/-- One view of one focal-stack frame: extract, shift if necessary, blur if
necessary (LFFocalStack::apply lines 45-67). -/
def processView (translate : ImgQ → ℚ → ℚ → ImgQ)
    (blur : ImgQ → ℚ → ℚ → ℚ → ImgQ) (lf : LightField) (alpha : ℚ)
    (u v : ℕ) : ImgQ :=
  blurStep blur alpha
    (shiftStep translate lf.uSize lf.vSize alpha u v (extractView lf u v))

/-- The accumulation for one focal-stack frame (lines 46-72): all uSize*vSize
processed views summed into the frame, v in the outer loop and u inner. -/
def focalAccum (translate : ImgQ → ℚ → ℚ → ImgQ)
    (blur : ImgQ → ℚ → ℚ → ℚ → ImgQ) (lf : LightField) (alpha : ℚ) : ImgQ :=
  fun x y c =>
    ∑ v ∈ Finset.range lf.vSize, ∑ u ∈ Finset.range lf.uSize,
      processView translate blur lf alpha u v x y c

/-- The focal stack output of LFFocalStack::apply: frame t holds the
accumulated views for the t-th depth sample, renormalized by the final
`out /= lf.uSize * lf.vSize` (line 78). Frames past the allocated count are
left at zero. -/
def focalStackOut (translate : ImgQ → ℚ → ℚ → ImgQ)
    (blur : ImgQ → ℚ → ℚ → ℚ → ImgQ) (lf : LightField)
    (minAlpha maxAlpha deltaAlpha : ℚ) (hd : 0 < deltaAlpha) (t : ℕ) : ImgQ :=
  match (alphaSamples maxAlpha deltaAlpha hd minAlpha)[t]? with
  | some alpha => fun x y c =>
      focalAccum translate blur lf alpha x y c / ((lf.uSize * lf.vSize : ℕ) : ℚ)
  | none => fun _ _ _ => 0

/-- A stand-in for the external translate operator that is observably not
the identity: it returns the constant image 99. -/
def demoTranslate : ImgQ → ℚ → ℚ → ImgQ :=
  fun _ _ _ => fun _ _ _ => 99

/-- A stand-in for the external Lanczos blur operator that is observably not
the identity: it returns the constant image 88. -/
def demoBlur : ImgQ → ℚ → ℚ → ℚ → ImgQ :=
  fun _ _ _ _ => fun _ _ _ => 88

/-- C1 (code bug): at alpha = 1 with a 2x2 lenslet, the view (u, v) = (0, 0)
has centered offset du = 0 - (2-1)/2 = -1/2, so alpha*du ≠ 0 and the claim
requires the view to be translated by (du*alpha, dv*alpha); but the code's
guard tests alpha*u = alpha*0 = 0 and alpha*v = 0, so the view is passed on
untranslated, while applying the translate operator would have produced a
different image. -/
theorem LFFocalStack.shift_guard_misses_corner_view :
    ((1:ℚ) * ((0:ℚ) - ((2:ℚ) - 1) / 2) ≠ 0) ∧
    shiftStep demoTranslate 2 2 1 0 0 (fun _ _ _ => 0) 0 0 0 = 0 ∧
    demoTranslate (fun _ _ _ => 0)
      (((0:ℚ) - ((2:ℚ) - 1) * (1/2)) * 1)
      (((0:ℚ) - ((2:ℚ) - 1) * (1/2)) * 1) 0 0 0 = 99 := by
  refine ⟨by norm_num, ?_, rfl⟩
  norm_num [shiftStep]

/-- C4: whenever the depth sample for frame t is alpha = 0, the focal stack
frame equals the plain per-pixel average of all uSize*vSize angular views:
no translation and no blur is applied to any view (the result does not
depend on the translate and blur operators at all). -/
theorem LFFocalStack.alpha_zero_frame_is_plain_average
    (translate : ImgQ → ℚ → ℚ → ImgQ) (blur : ImgQ → ℚ → ℚ → ℚ → ImgQ)
    (lf : LightField) (minAlpha maxAlpha deltaAlpha : ℚ) (hd : 0 < deltaAlpha)
    (t : ℕ) (ht : (alphaSamples maxAlpha deltaAlpha hd minAlpha)[t]? = some 0)
    (x y c : ℕ) :
    focalStackOut translate blur lf minAlpha maxAlpha deltaAlpha hd t x y c
      = (∑ v ∈ Finset.range lf.vSize, ∑ u ∈ Finset.range lf.uSize,
          lf.get x y u v c) / ((lf.uSize * lf.vSize : ℕ) : ℚ) := by
  unfold focalStackOut
  rw [ht]
  unfold focalAccum processView blurStep shiftStep extractView
  norm_num

lemma halfPos : (0:ℚ) < 1/2 := by norm_num

/-- A concrete light field for the averaging witness: a 2x1 buffer, lenslet
2x1 (so one spatial pixel and two views), with view u = 0 holding value 3
and view u = 1 holding value 5. -/
def lfAvg : LightField :=
  ⟨⟨2, 1, 1, 1, fun bx _ _ _ => if bx = 0 then 3 else 5⟩, 2, 1⟩

/-- Witness for C4: with depth samples -1, -1/2, 0, 1/2, 1, frame 2 has
alpha = 0 and equals the plain average (3 + 5) / 2 = 4, for stand-in
translate and blur operators that are far from the identity. -/
theorem LFFocalStack.alpha_zero_frame_is_plain_average_witness :
    ((alphaSamples 1 (1/2) halfPos (-1))[2]? = some 0) ∧
    focalStackOut demoTranslate demoBlur lfAvg (-1) 1 (1/2) halfPos 2 0 0 0 = 4 := by
  have h : (alphaSamples 1 (1/2) halfPos (-1))[2]? = some 0 := by
    norm_num [alphaSamples_cons, alphaSamples_nil]
  refine ⟨h, ?_⟩
  rw [LFFocalStack.alpha_zero_frame_is_plain_average demoTranslate demoBlur
    lfAvg (-1) 1 (1/2) halfPos 2 h 0 0 0]
  norm_num [LightField.get, lfAvg, Finset.sum_range_succ]

/-- The output allocation of LFWarp::apply (line 118), with the constructor
arguments in the order the code passes them:
`NewImage out(warper.frames, warper.width, warper.height, lf.image.channels)`. -/
def LFWarp.outShape (lf : LightField) (warper : NewImage) : ImageShape :=
  newImageShape warper.frames warper.width warper.height lf.image.channels

/-- A concrete 4-channel coordinate map: width 2, height 3, one frame. -/
def wMap : NewImage :=
  ⟨2, 3, 1, 4, fun _ _ _ _ => 0⟩

/-- C2 (code bug): LFWarp::apply allocates its output with the coordinate
map's dimensions permuted: width receives the map's frame count, height the
map's width and frames the map's height, instead of copying frames, width
and height. For a 2x3 single-frame map the resulting shape differs from the
claimed one, and the processing loop, which writes out(x, y, t, c) for
x up to warper.width-1 = 1, writes past the allocated width of 1. -/
theorem LFWarp.output_shape_permuted :
    LFWarp.outShape lfDemo wMap
      ≠ newImageShape wMap.width wMap.height wMap.frames lfDemo.image.channels ∧
    (LFWarp.outShape lfDemo wMap).width = wMap.frames ∧
    (LFWarp.outShape lfDemo wMap).height = wMap.width ∧
    (LFWarp.outShape lfDemo wMap).frames = wMap.height ∧
    1 < wMap.width ∧
    ¬ 1 < (LFWarp.outShape lfDemo wMap).width := by
  refine ⟨?_, rfl, rfl, rfl, by norm_num [wMap], by norm_num [LFWarp.outShape, newImageShape, wMap]⟩
  intro h
  have := congrArg ImageShape.width h
  simp [LFWarp.outShape, newImageShape, wMap] at this

/-- The fast-mode index computation of LFWarp::apply for one coordinate
axis: scale the normalized map value to the index range (lines 125-128),
add 0.5 and truncate to int (lines 135-138), then clamp into
[0, extent-1] (lines 139-142). -/
def LFWarp.quickIdx (extent : ℕ) (coord : ℚ) : ℤ :=
  clampZ (cCastInt (coord * ((extent:ℚ) - 1) + 1/2)) 0 ((extent:ℤ) - 1)

/-- The fast-mode output pixel of LFWarp::apply (lines 134-145): every
output channel is read directly from the discrete light field at the four
rounded-and-clamped indices. -/
def LFWarp.quickPixel (lf : LightField) (s tc uc vc : ℚ) (c : ℕ) : ℚ :=
  lf.get (LFWarp.quickIdx lf.xSize s).toNat (LFWarp.quickIdx lf.ySize tc).toNat
    (LFWarp.quickIdx lf.uSize uc).toNat (LFWarp.quickIdx lf.vSize vc).toNat c

lemma quickIdx_eq_round (extent : ℕ) (coord : ℚ) (h0 : 0 ≤ coord)
    (hext : 1 ≤ extent) :
    LFWarp.quickIdx extent coord
      = clampZ (round (coord * ((extent:ℚ) - 1))) 0 ((extent:ℤ) - 1) := by
  have hcast : (1:ℚ) ≤ (extent:ℚ) := by exact_mod_cast hext
  have hq : (0:ℚ) ≤ coord * ((extent:ℚ) - 1) :=
    mul_nonneg h0 (by linarith)
  unfold LFWarp.quickIdx cCastInt
  rw [if_pos (by linarith), round_eq]

lemma quickIdx_bounds (extent : ℕ) (coord : ℚ) (hext : 1 ≤ extent) :
    0 ≤ LFWarp.quickIdx extent coord ∧
      LFWarp.quickIdx extent coord < (extent:ℤ) := by
  unfold LFWarp.quickIdx clampZ
  have h1 : (1:ℤ) ≤ (extent:ℤ) := by exact_mod_cast hext
  constructor
  · exact le_min (le_max_right _ _) (by omega)
  · have := min_le_right (max (cCastInt (coord * ((extent:ℚ) - 1) + 1/2)) 0)
      ((extent:ℤ) - 1)
    omega

/-- C5: in fast (quick) mode, for map values in [0,1] the four scaled
coordinates s*(X-1), t*(Y-1), u*(U-1), v*(V-1) are rounded to the nearest
integer, clamped to the valid index range, and the light field is indexed
directly with no interpolation to produce every output channel. -/
theorem LFWarp.quick_mode_nearest_neighbor (lf : LightField)
    (s tc uc vc : ℚ) (c : ℕ)
    (hs : 0 ≤ s ∧ s ≤ 1) (ht : 0 ≤ tc ∧ tc ≤ 1)
    (hu : 0 ≤ uc ∧ uc ≤ 1) (hv : 0 ≤ vc ∧ vc ≤ 1)
    (hX : 1 ≤ lf.xSize) (hY : 1 ≤ lf.ySize)
    (hU : 1 ≤ lf.uSize) (hV : 1 ≤ lf.vSize) :
    LFWarp.quickIdx lf.xSize s
      = clampZ (round (s * ((lf.xSize:ℚ) - 1))) 0 ((lf.xSize:ℤ) - 1) ∧
    LFWarp.quickIdx lf.ySize tc
      = clampZ (round (tc * ((lf.ySize:ℚ) - 1))) 0 ((lf.ySize:ℤ) - 1) ∧
    LFWarp.quickIdx lf.uSize uc
      = clampZ (round (uc * ((lf.uSize:ℚ) - 1))) 0 ((lf.uSize:ℤ) - 1) ∧
    LFWarp.quickIdx lf.vSize vc
      = clampZ (round (vc * ((lf.vSize:ℚ) - 1))) 0 ((lf.vSize:ℤ) - 1) ∧
    LFWarp.quickPixel lf s tc uc vc c
      = lf.get (clampZ (round (s * ((lf.xSize:ℚ) - 1))) 0 ((lf.xSize:ℤ) - 1)).toNat
          (clampZ (round (tc * ((lf.ySize:ℚ) - 1))) 0 ((lf.ySize:ℤ) - 1)).toNat
          (clampZ (round (uc * ((lf.uSize:ℚ) - 1))) 0 ((lf.uSize:ℤ) - 1)).toNat
          (clampZ (round (vc * ((lf.vSize:ℚ) - 1))) 0 ((lf.vSize:ℤ) - 1)).toNat c := by
  have h1 := quickIdx_eq_round lf.xSize s hs.1 hX
  have h2 := quickIdx_eq_round lf.ySize tc ht.1 hY
  have h3 := quickIdx_eq_round lf.uSize uc hu.1 hU
  have h4 := quickIdx_eq_round lf.vSize vc hv.1 hV
  refine ⟨h1, h2, h3, h4, ?_⟩
  unfold LFWarp.quickPixel
  rw [h1, h2, h3, h4]

/-- C9: in fast (quick) mode, for arbitrary map values (also outside [0,1])
all four computed indices are clamped into [0, extent-1], so every read of
the light field is in bounds. -/
theorem LFWarp.quick_mode_reads_in_bounds (lf : LightField)
    (s tc uc vc : ℚ)
    (hX : 1 ≤ lf.xSize) (hY : 1 ≤ lf.ySize)
    (hU : 1 ≤ lf.uSize) (hV : 1 ≤ lf.vSize) :
    (0 ≤ LFWarp.quickIdx lf.xSize s ∧ LFWarp.quickIdx lf.xSize s < (lf.xSize:ℤ)) ∧
    (0 ≤ LFWarp.quickIdx lf.ySize tc ∧ LFWarp.quickIdx lf.ySize tc < (lf.ySize:ℤ)) ∧
    (0 ≤ LFWarp.quickIdx lf.uSize uc ∧ LFWarp.quickIdx lf.uSize uc < (lf.uSize:ℤ)) ∧
    (0 ≤ LFWarp.quickIdx lf.vSize vc ∧ LFWarp.quickIdx lf.vSize vc < (lf.vSize:ℤ)) :=
  ⟨quickIdx_bounds lf.xSize s hX, quickIdx_bounds lf.ySize tc hY,
    quickIdx_bounds lf.uSize uc hU, quickIdx_bounds lf.vSize vc hV⟩

/-- Witness for C5 at lfDemo (spatial 4x2, lenslet 2x2) with map values
(1/3, 1, 0, 1/2): the x index is round(1/3 * 3) = 1, and the pixel is a
direct read of the light field. -/
theorem LFWarp.quick_mode_nearest_neighbor_witness :
    (((0:ℚ) ≤ 1/3 ∧ (1/3:ℚ) ≤ 1) ∧ 1 ≤ lfDemo.xSize) ∧
    (LFWarp.quickIdx lfDemo.xSize (1/3)
        = clampZ (round ((1/3) * ((lfDemo.xSize:ℚ) - 1))) 0 ((lfDemo.xSize:ℤ) - 1) ∧
      LFWarp.quickIdx lfDemo.ySize 1
        = clampZ (round ((1:ℚ) * ((lfDemo.ySize:ℚ) - 1))) 0 ((lfDemo.ySize:ℤ) - 1) ∧
      LFWarp.quickIdx lfDemo.uSize 0
        = clampZ (round ((0:ℚ) * ((lfDemo.uSize:ℚ) - 1))) 0 ((lfDemo.uSize:ℤ) - 1) ∧
      LFWarp.quickIdx lfDemo.vSize (1/2)
        = clampZ (round ((1/2) * ((lfDemo.vSize:ℚ) - 1))) 0 ((lfDemo.vSize:ℤ) - 1) ∧
      LFWarp.quickPixel lfDemo (1/3) 1 0 (1/2) 0
        = lfDemo.get
            (clampZ (round ((1/3) * ((lfDemo.xSize:ℚ) - 1))) 0 ((lfDemo.xSize:ℤ) - 1)).toNat
            (clampZ (round ((1:ℚ) * ((lfDemo.ySize:ℚ) - 1))) 0 ((lfDemo.ySize:ℤ) - 1)).toNat
            (clampZ (round ((0:ℚ) * ((lfDemo.uSize:ℚ) - 1))) 0 ((lfDemo.uSize:ℤ) - 1)).toNat
            (clampZ (round ((1/2) * ((lfDemo.vSize:ℚ) - 1))) 0 ((lfDemo.vSize:ℤ) - 1)).toNat 0) ∧
    LFWarp.quickIdx lfDemo.xSize (1/3) = 1 := by
  refine ⟨⟨by norm_num, by norm_num [LightField.xSize, lfDemo]⟩,
    LFWarp.quick_mode_nearest_neighbor lfDemo (1/3) 1 0 (1/2) 0
      (by norm_num) (by norm_num) (by norm_num) (by norm_num)
      (by norm_num [LightField.xSize, lfDemo])
      (by norm_num [LightField.ySize, lfDemo])
      (by norm_num [LightField.xSize, lfDemo])
      (by norm_num [LightField.ySize, lfDemo]), ?_⟩
  norm_num [LFWarp.quickIdx, clampZ, cCastInt, LightField.xSize, lfDemo]

/-- Witness for C9 at lfDemo with map values (5, -3, 2, -1/2), all outside
[0,1]: every computed index is still within bounds; concretely the x index
clamps to 3 and the y index clamps to 0. -/
theorem LFWarp.quick_mode_reads_in_bounds_witness :
    (1 ≤ lfDemo.xSize) ∧
    ((0 ≤ LFWarp.quickIdx lfDemo.xSize 5 ∧
        LFWarp.quickIdx lfDemo.xSize 5 < (lfDemo.xSize:ℤ)) ∧
      (0 ≤ LFWarp.quickIdx lfDemo.ySize (-3) ∧
        LFWarp.quickIdx lfDemo.ySize (-3) < (lfDemo.ySize:ℤ)) ∧
      (0 ≤ LFWarp.quickIdx lfDemo.uSize 2 ∧
        LFWarp.quickIdx lfDemo.uSize 2 < (lfDemo.uSize:ℤ)) ∧
      (0 ≤ LFWarp.quickIdx lfDemo.vSize (-1/2) ∧
        LFWarp.quickIdx lfDemo.vSize (-1/2) < (lfDemo.vSize:ℤ))) ∧
    LFWarp.quickIdx lfDemo.xSize 5 = 3 ∧
    LFWarp.quickIdx lfDemo.ySize (-3) = 0 := by
  have hceil : ⌈(-(5/2) : ℚ)⌉ = -2 := by
    rw [Int.ceil_eq_iff]
    norm_num
  refine ⟨by norm_num [LightField.xSize, lfDemo],
    LFWarp.quick_mode_reads_in_bounds lfDemo 5 (-3) 2 (-1/2)
      (by norm_num [LightField.xSize, lfDemo])
      (by norm_num [LightField.ySize, lfDemo])
      (by norm_num [LightField.xSize, lfDemo])
      (by norm_num [LightField.ySize, lfDemo]), ?_, ?_⟩
  · norm_num [LFWarp.quickIdx, clampZ, cCastInt, LightField.xSize, lfDemo]
  · norm_num [LFWarp.quickIdx, clampZ, cCastInt, LightField.ySize, lfDemo, hceil]

/-- The projected spatial x of LFPoint::apply (lines 171-174): with
pu = u + 0.5 - uSize*0.5, the int cast of (px + pz*pu)*xSize + 0.5. -/
def LFPoint.viewX (lf : LightField) (px pz : ℚ) (u : ℕ) : ℤ :=
  cCastInt ((px + pz * ((u:ℚ) + 1/2 - (lf.uSize:ℚ) * (1/2))) * (lf.xSize:ℚ) + 1/2)

/-- The projected spatial y of LFPoint::apply (lines 172-175): with
pv = v + 0.5 - vSize*0.5, the int cast of (py + pz*pv)*ySize + 0.5. -/
def LFPoint.viewY (lf : LightField) (py pz : ℚ) (v : ℕ) : ℤ :=
  cCastInt ((py + pz * ((v:ℚ) + 1/2 - (lf.vSize:ℚ) * (1/2))) * (lf.ySize:ℚ) + 1/2)

/-- One iteration of LFPoint::apply's view loop (lines 171-179): if the
projected pixel is out of bounds the view is skipped, otherwise every
channel of the light field at (x, y, u, v) is set to 1, i.e. buffer pixel
(x*uSize + u, y*vSize + v) in frame 0. -/
def LFPoint.markView (lf : LightField) (px py pz : ℚ) (u v : ℕ)
    (buf : ℕ → ℕ → ℕ → ℕ → ℚ) : ℕ → ℕ → ℕ → ℕ → ℚ :=
  if LFPoint.viewX lf px pz u < 0 ∨ (lf.xSize:ℤ) ≤ LFPoint.viewX lf px pz u ∨
      LFPoint.viewY lf py pz v < 0 ∨ (lf.ySize:ℤ) ≤ LFPoint.viewY lf py pz v then
    buf
  else
    fun bx bY t c =>
      if bx = (LFPoint.viewX lf px pz u).toNat * lf.uSize + u ∧
          bY = (LFPoint.viewY lf py pz v).toNat * lf.vSize + v ∧
          t = 0 ∧ c < lf.image.channels then
        1
      else
        buf bx bY t c

/-- LFPoint::apply (lines 168-182): the double loop over all views, v outer
and u inner, mutating the light field's buffer in place. -/
def LFPoint.apply (lf : LightField) (px py pz : ℚ) : LightField :=
  let newData : ℕ → ℕ → ℕ → ℕ → ℚ :=
    (List.range lf.vSize).foldl (fun b v =>
      (List.range lf.uSize).foldl
        (fun b2 u => LFPoint.markView lf px py pz u v b2) b)
      lf.image.data
  { lf with image := { lf.image with data := newData } }

lemma markView_keeps_one {lf : LightField} {px py pz : ℚ} {u v : ℕ}
    {buf : ℕ → ℕ → ℕ → ℕ → ℚ} {bx bY t c : ℕ} (h : buf bx bY t c = 1) :
    LFPoint.markView lf px py pz u v buf bx bY t c = 1 := by
  unfold LFPoint.markView
  split
  · exact h
  · by_cases hw : bx = (LFPoint.viewX lf px pz u).toNat * lf.uSize + u ∧
        bY = (LFPoint.viewY lf py pz v).toNat * lf.vSize + v ∧
        t = 0 ∧ c < lf.image.channels
    · simp only [if_pos hw]
    · simp only [if_neg hw]
      exact h

lemma markView_hit {lf : LightField} {px py pz : ℚ} {u v : ℕ}
    {buf : ℕ → ℕ → ℕ → ℕ → ℚ} {c : ℕ}
    (hin : ¬(LFPoint.viewX lf px pz u < 0 ∨
      (lf.xSize:ℤ) ≤ LFPoint.viewX lf px pz u ∨
      LFPoint.viewY lf py pz v < 0 ∨
      (lf.ySize:ℤ) ≤ LFPoint.viewY lf py pz v))
    (hc : c < lf.image.channels) :
    LFPoint.markView lf px py pz u v buf
      ((LFPoint.viewX lf px pz u).toNat * lf.uSize + u)
      ((LFPoint.viewY lf py pz v).toNat * lf.vSize + v) 0 c = 1 := by
  unfold LFPoint.markView
  rw [if_neg hin]
  simp [hc]

lemma markView_miss {lf : LightField} {px py pz : ℚ} {u v : ℕ}
    {buf : ℕ → ℕ → ℕ → ℕ → ℚ} {bx bY t c : ℕ}
    (h : ¬(¬(LFPoint.viewX lf px pz u < 0 ∨
        (lf.xSize:ℤ) ≤ LFPoint.viewX lf px pz u ∨
        LFPoint.viewY lf py pz v < 0 ∨
        (lf.ySize:ℤ) ≤ LFPoint.viewY lf py pz v) ∧
      bx = (LFPoint.viewX lf px pz u).toNat * lf.uSize + u ∧
      bY = (LFPoint.viewY lf py pz v).toNat * lf.vSize + v ∧
      t = 0 ∧ c < lf.image.channels)) :
    LFPoint.markView lf px py pz u v buf bx bY t c = buf bx bY t c := by
  unfold LFPoint.markView
  split
  case isTrue hg => rfl
  case isFalse hg =>
    have hw : ¬(bx = (LFPoint.viewX lf px pz u).toNat * lf.uSize + u ∧
        bY = (LFPoint.viewY lf py pz v).toNat * lf.vSize + v ∧
        t = 0 ∧ c < lf.image.channels) := fun hcond => h ⟨hg, hcond⟩
    simp only [if_neg hw]

lemma foldl_mark_keeps_one (lf : LightField) (px py pz : ℚ)
    (bx bY t c : ℕ) :
    ∀ (l : List ℕ) (v : ℕ) (buf : ℕ → ℕ → ℕ → ℕ → ℚ), buf bx bY t c = 1 →
      (l.foldl (fun b u => LFPoint.markView lf px py pz u v b) buf) bx bY t c = 1 := by
  intro l
  induction l with
  | nil =>
    intro v buf h
    exact h
  | cons a rest ih =>
    intro v buf h
    exact ih v _ (markView_keeps_one h)

lemma foldl_mark_hit (lf : LightField) (px py pz : ℚ) (u v c : ℕ)
    (hin : ¬(LFPoint.viewX lf px pz u < 0 ∨
      (lf.xSize:ℤ) ≤ LFPoint.viewX lf px pz u ∨
      LFPoint.viewY lf py pz v < 0 ∨
      (lf.ySize:ℤ) ≤ LFPoint.viewY lf py pz v))
    (hc : c < lf.image.channels) :
    ∀ (l : List ℕ) (buf : ℕ → ℕ → ℕ → ℕ → ℚ), u ∈ l →
      (l.foldl (fun b u2 => LFPoint.markView lf px py pz u2 v b) buf)
        ((LFPoint.viewX lf px pz u).toNat * lf.uSize + u)
        ((LFPoint.viewY lf py pz v).toNat * lf.vSize + v) 0 c = 1 := by
  intro l
  induction l with
  | nil =>
    intro buf h
    cases h
  | cons a rest ih =>
    intro buf hmem
    rcases List.mem_cons.mp hmem with heq | hmem2
    · subst heq
      exact foldl_mark_keeps_one lf px py pz _ _ _ _ rest v _ (markView_hit hin hc)
    · exact ih _ hmem2

lemma foldl_row_keeps_one (lf : LightField) (px py pz : ℚ)
    (bx bY t c : ℕ) :
    ∀ (l : List ℕ) (buf : ℕ → ℕ → ℕ → ℕ → ℚ), buf bx bY t c = 1 →
      (l.foldl (fun b v => (List.range lf.uSize).foldl
        (fun b2 u => LFPoint.markView lf px py pz u v b2) b) buf) bx bY t c = 1 := by
  intro l
  induction l with
  | nil =>
    intro buf h
    exact h
  | cons a rest ih =>
    intro buf h
    exact ih _ (foldl_mark_keeps_one lf px py pz bx bY t c (List.range lf.uSize) a buf h)

lemma foldl_row_hit (lf : LightField) (px py pz : ℚ) (u v c : ℕ)
    (hu : u < lf.uSize)
    (hin : ¬(LFPoint.viewX lf px pz u < 0 ∨
      (lf.xSize:ℤ) ≤ LFPoint.viewX lf px pz u ∨
      LFPoint.viewY lf py pz v < 0 ∨
      (lf.ySize:ℤ) ≤ LFPoint.viewY lf py pz v))
    (hc : c < lf.image.channels) :
    ∀ (l : List ℕ) (buf : ℕ → ℕ → ℕ → ℕ → ℚ), v ∈ l →
      (l.foldl (fun b v2 => (List.range lf.uSize).foldl
        (fun b2 u2 => LFPoint.markView lf px py pz u2 v2 b2) b) buf)
        ((LFPoint.viewX lf px pz u).toNat * lf.uSize + u)
        ((LFPoint.viewY lf py pz v).toNat * lf.vSize + v) 0 c = 1 := by
  intro l
  induction l with
  | nil =>
    intro buf h
    cases h
  | cons a rest ih =>
    intro buf hmem
    rcases List.mem_cons.mp hmem with heq | hmem2
    · subst heq
      exact foldl_row_keeps_one lf px py pz _ _ _ _ rest _
        (foldl_mark_hit lf px py pz u v c hin hc (List.range lf.uSize) buf
          (List.mem_range.mpr hu))
    · exact ih _ hmem2

lemma lfpoint_apply_marked (lf : LightField) (px py pz : ℚ) (u v c : ℕ)
    (hu : u < lf.uSize) (hv : v < lf.vSize) (hc : c < lf.image.channels)
    (hin : ¬(LFPoint.viewX lf px pz u < 0 ∨
      (lf.xSize:ℤ) ≤ LFPoint.viewX lf px pz u ∨
      LFPoint.viewY lf py pz v < 0 ∨
      (lf.ySize:ℤ) ≤ LFPoint.viewY lf py pz v)) :
    (LFPoint.apply lf px py pz).image.data
      ((LFPoint.viewX lf px pz u).toNat * lf.uSize + u)
      ((LFPoint.viewY lf py pz v).toNat * lf.vSize + v) 0 c = 1 := by
  unfold LFPoint.apply
  exact foldl_row_hit lf px py pz u v c hu hin hc (List.range lf.vSize)
    lf.image.data (List.mem_range.mpr hv)

lemma cCast_half_eq_round (q : ℚ) (h : 0 ≤ round q) :
    cCastInt (q + 1/2) = round q := by
  have h3 : (0:ℤ) ≤ ⌊q + 1/2⌋ := by
    rw [round_eq] at h
    exact h
  have h2 : (0:ℚ) ≤ q + 1/2 := by exact_mod_cast Int.le_floor.mp h3
  unfold cCastInt
  rw [if_pos h2, round_eq]

/-- C6: for every angular view (u, v), with pu = u + 0.5 - U/2 and
pv = v + 0.5 - V/2, the Point Marker projects the point to
x = round((px + pz*pu)*X), y = round((py + pz*pv)*Y), and when (x, y) lies
inside [0,X) x [0,Y) it sets every channel of the light field at
(x, y, u, v) to 1. -/
theorem LFPoint.marks_projected_pixel (lf : LightField) (px py pz : ℚ)
    (u v c : ℕ) (hu : u < lf.uSize) (hv : v < lf.vSize)
    (hc : c < lf.image.channels)
    (hx0 : 0 ≤ round ((px + pz * ((u:ℚ) + 1/2 - (lf.uSize:ℚ) / 2)) * (lf.xSize:ℚ)))
    (hx1 : round ((px + pz * ((u:ℚ) + 1/2 - (lf.uSize:ℚ) / 2)) * (lf.xSize:ℚ))
      < (lf.xSize:ℤ))
    (hy0 : 0 ≤ round ((py + pz * ((v:ℚ) + 1/2 - (lf.vSize:ℚ) / 2)) * (lf.ySize:ℚ)))
    (hy1 : round ((py + pz * ((v:ℚ) + 1/2 - (lf.vSize:ℚ) / 2)) * (lf.ySize:ℚ))
      < (lf.ySize:ℤ)) :
    (LFPoint.apply lf px py pz).get
      (round ((px + pz * ((u:ℚ) + 1/2 - (lf.uSize:ℚ) / 2)) * (lf.xSize:ℚ))).toNat
      (round ((py + pz * ((v:ℚ) + 1/2 - (lf.vSize:ℚ) / 2)) * (lf.ySize:ℚ))).toNat
      u v c = 1 := by
  have hx : LFPoint.viewX lf px pz u
      = round ((px + pz * ((u:ℚ) + 1/2 - (lf.uSize:ℚ) / 2)) * (lf.xSize:ℚ)) := by
    unfold LFPoint.viewX
    rw [show (px + pz * ((u:ℚ) + 1/2 - (lf.uSize:ℚ) * (1/2))) * (lf.xSize:ℚ) + 1/2
        = (px + pz * ((u:ℚ) + 1/2 - (lf.uSize:ℚ) / 2)) * (lf.xSize:ℚ) + 1/2 from by ring]
    exact cCast_half_eq_round _ hx0
  have hy : LFPoint.viewY lf py pz v
      = round ((py + pz * ((v:ℚ) + 1/2 - (lf.vSize:ℚ) / 2)) * (lf.ySize:ℚ)) := by
    unfold LFPoint.viewY
    rw [show (py + pz * ((v:ℚ) + 1/2 - (lf.vSize:ℚ) * (1/2))) * (lf.ySize:ℚ) + 1/2
        = (py + pz * ((v:ℚ) + 1/2 - (lf.vSize:ℚ) / 2)) * (lf.ySize:ℚ) + 1/2 from by ring]
    exact cCast_half_eq_round _ hy0
  have hin : ¬(LFPoint.viewX lf px pz u < 0 ∨
      (lf.xSize:ℤ) ≤ LFPoint.viewX lf px pz u ∨
      LFPoint.viewY lf py pz v < 0 ∨
      (lf.ySize:ℤ) ≤ LFPoint.viewY lf py pz v) := by
    rw [hx, hy]
    push_neg
    exact ⟨hx0, hx1, hy0, hy1⟩
  have hmarked := lfpoint_apply_marked lf px py pz u v c hu hv hc hin
  rw [hx, hy] at hmarked
  show (LFPoint.apply lf px py pz).image.data _ _ 0 c = 1
  exact hmarked

/-- A concrete light field for the point-marker witness: a 4x4 buffer with
lenslet 2x2, so spatial size 2x2, one channel, all zero. -/
def lfMark : LightField :=
  ⟨⟨4, 4, 1, 1, fun _ _ _ _ => 0⟩, 2, 2⟩

/-- Witness for C6 at lfMark with point (1/2, 1/2, 0) and view (1, 1): the
point projects to the pixel (1, 1), which is marked to 1. -/
theorem LFPoint.marks_projected_pixel_witness :
    (1 < lfMark.uSize ∧ 1 < lfMark.vSize ∧ 0 < lfMark.image.channels ∧
      0 ≤ round (((1:ℚ)/2 + 0 * ((1:ℚ) + 1/2 - (lfMark.uSize:ℚ) / 2)) * (lfMark.xSize:ℚ)) ∧
      round (((1:ℚ)/2 + 0 * ((1:ℚ) + 1/2 - (lfMark.uSize:ℚ) / 2)) * (lfMark.xSize:ℚ))
        < (lfMark.xSize:ℤ)) ∧
    (LFPoint.apply lfMark (1/2) (1/2) 0).get
      (round (((1:ℚ)/2 + 0 * (((1:ℕ):ℚ) + 1/2 - (lfMark.uSize:ℚ) / 2)) * (lfMark.xSize:ℚ))).toNat
      (round (((1:ℚ)/2 + 0 * (((1:ℕ):ℚ) + 1/2 - (lfMark.vSize:ℚ) / 2)) * (lfMark.ySize:ℚ))).toNat
      1 1 0 = 1 := by
  constructor
  · refine ⟨by norm_num [lfMark], by norm_num [lfMark], by norm_num [lfMark], ?_, ?_⟩
    · norm_num [LightField.xSize, lfMark, round_eq]
    · norm_num [LightField.xSize, lfMark, round_eq]
  · exact LFPoint.marks_projected_pixel lfMark (1/2) (1/2) 0 1 1 0
      (by norm_num [lfMark]) (by norm_num [lfMark]) (by norm_num [lfMark])
      (by norm_num [LightField.xSize, lfMark, round_eq])
      (by norm_num [LightField.xSize, lfMark, round_eq])
      (by norm_num [LightField.ySize, lfMark, round_eq])
      (by norm_num [LightField.ySize, lfMark, round_eq])

/-- The buffer cells LFPoint::apply writes: cell (bx, bY, t, c) is written
exactly when some in-range view (u, v) passes the bounds guard and projects
to that cell. -/
def LFPoint.marks (lf : LightField) (px py pz : ℚ) (bx bY t c : ℕ) : Prop :=
  ∃ v ∈ Finset.range lf.vSize, ∃ u ∈ Finset.range lf.uSize,
    ¬(LFPoint.viewX lf px pz u < 0 ∨
      (lf.xSize:ℤ) ≤ LFPoint.viewX lf px pz u ∨
      LFPoint.viewY lf py pz v < 0 ∨
      (lf.ySize:ℤ) ≤ LFPoint.viewY lf py pz v) ∧
    bx = (LFPoint.viewX lf px pz u).toNat * lf.uSize + u ∧
    bY = (LFPoint.viewY lf py pz v).toNat * lf.vSize + v ∧
    t = 0 ∧ c < lf.image.channels

lemma foldl_mark_pres (lf : LightField) (px py pz : ℚ) (bx bY t c : ℕ) :
    ∀ (l : List ℕ) (v : ℕ) (buf : ℕ → ℕ → ℕ → ℕ → ℚ),
      (∀ u ∈ l, ¬(¬(LFPoint.viewX lf px pz u < 0 ∨
          (lf.xSize:ℤ) ≤ LFPoint.viewX lf px pz u ∨
          LFPoint.viewY lf py pz v < 0 ∨
          (lf.ySize:ℤ) ≤ LFPoint.viewY lf py pz v) ∧
        bx = (LFPoint.viewX lf px pz u).toNat * lf.uSize + u ∧
        bY = (LFPoint.viewY lf py pz v).toNat * lf.vSize + v ∧
        t = 0 ∧ c < lf.image.channels)) →
      (l.foldl (fun b u => LFPoint.markView lf px py pz u v b) buf) bx bY t c
        = buf bx bY t c := by
  intro l
  induction l with
  | nil =>
    intro v buf _h
    rfl
  | cons a rest ih =>
    intro v buf h
    rw [List.foldl_cons, ih v _ (fun u hu => h u (List.mem_cons_of_mem a hu)),
      markView_miss (h a (List.mem_cons_self a rest))]

lemma foldl_row_pres (lf : LightField) (px py pz : ℚ) (bx bY t c : ℕ) :
    ∀ (l : List ℕ) (buf : ℕ → ℕ → ℕ → ℕ → ℚ),
      (∀ v ∈ l, ∀ u ∈ List.range lf.uSize,
        ¬(¬(LFPoint.viewX lf px pz u < 0 ∨
            (lf.xSize:ℤ) ≤ LFPoint.viewX lf px pz u ∨
            LFPoint.viewY lf py pz v < 0 ∨
            (lf.ySize:ℤ) ≤ LFPoint.viewY lf py pz v) ∧
          bx = (LFPoint.viewX lf px pz u).toNat * lf.uSize + u ∧
          bY = (LFPoint.viewY lf py pz v).toNat * lf.vSize + v ∧
          t = 0 ∧ c < lf.image.channels)) →
      (l.foldl (fun b v2 => (List.range lf.uSize).foldl
        (fun b2 u2 => LFPoint.markView lf px py pz u2 v2 b2) b) buf) bx bY t c
        = buf bx bY t c := by
  intro l
  induction l with
  | nil =>
    intro buf _h
    rfl
  | cons a rest ih =>
    intro buf h
    rw [List.foldl_cons, ih _ (fun v hv => h v (List.mem_cons_of_mem a hv)),
      foldl_mark_pres lf px py pz bx bY t c (List.range lf.uSize) a buf
        (h a (List.mem_cons_self a rest))]

/-- C7 (amended): the Point Marker leaves every buffer cell unmodified
except the cells it marks (at most one pixel per angular view, the one the
code's truncated projection selects); every marked cell lies inside the
buffer (no out-of-range write); and every in-range view whose truncated
projection falls outside [0,X) x [0,Y) is left completely unmodified. -/
theorem LFPoint.frame_effect (lf : LightField) (px py pz : ℚ) :
    (∀ bx bY t c, ¬ LFPoint.marks lf px py pz bx bY t c →
      (LFPoint.apply lf px py pz).image.data bx bY t c = lf.image.data bx bY t c) ∧
    (∀ bx bY t c, LFPoint.marks lf px py pz bx bY t c →
      bx < lf.image.width ∧ bY < lf.image.height) ∧
    (∀ u v, u < lf.uSize → v < lf.vSize →
      (LFPoint.viewX lf px pz u < 0 ∨ (lf.xSize:ℤ) ≤ LFPoint.viewX lf px pz u ∨
        LFPoint.viewY lf py pz v < 0 ∨ (lf.ySize:ℤ) ≤ LFPoint.viewY lf py pz v) →
      ∀ x y c, (LFPoint.apply lf px py pz).get x y u v c = lf.get x y u v c) := by
  refine ⟨?_, ?_, ?_⟩
  · intro bx bY t c hnm
    unfold LFPoint.apply
    exact foldl_row_pres lf px py pz bx bY t c (List.range lf.vSize) lf.image.data
      (fun v hv u hu hbad =>
        hnm ⟨v, Finset.mem_range.mpr (List.mem_range.mp hv),
          u, Finset.mem_range.mpr (List.mem_range.mp hu), hbad⟩)
  · rintro bx bY t c ⟨v, hv, u, hu, hg, rfl, rfl, -, -⟩
    push_neg at hg
    obtain ⟨hg1, hg2, hg3, hg4⟩ := hg
    have hu2 : u < lf.uSize := Finset.mem_range.mp hu
    have hv2 : v < lf.vSize := Finset.mem_range.mp hv
    constructor
    · have hxlt : (LFPoint.viewX lf px pz u).toNat + 1 ≤ lf.xSize := by omega
      have h1 : ((LFPoint.viewX lf px pz u).toNat + 1) * lf.uSize
          ≤ lf.xSize * lf.uSize := Nat.mul_le_mul_right _ hxlt
      have h2 : lf.xSize * lf.uSize ≤ lf.image.width := Nat.div_mul_le_self _ _
      have h3 : (LFPoint.viewX lf px pz u).toNat * lf.uSize + u
          < ((LFPoint.viewX lf px pz u).toNat + 1) * lf.uSize := by
        rw [Nat.add_mul, one_mul]
        omega
      omega
    · have hylt : (LFPoint.viewY lf py pz v).toNat + 1 ≤ lf.ySize := by omega
      have h1 : ((LFPoint.viewY lf py pz v).toNat + 1) * lf.vSize
          ≤ lf.ySize * lf.vSize := Nat.mul_le_mul_right _ hylt
      have h2 : lf.ySize * lf.vSize ≤ lf.image.height := Nat.div_mul_le_self _ _
      have h3 : (LFPoint.viewY lf py pz v).toNat * lf.vSize + v
          < ((LFPoint.viewY lf py pz v).toNat + 1) * lf.vSize := by
        rw [Nat.add_mul, one_mul]
        omega
      omega
  · intro u v hu hv hout x y c
    have hnm : ∀ v2 ∈ List.range lf.vSize, ∀ u2 ∈ List.range lf.uSize,
        ¬(¬(LFPoint.viewX lf px pz u2 < 0 ∨
            (lf.xSize:ℤ) ≤ LFPoint.viewX lf px pz u2 ∨
            LFPoint.viewY lf py pz v2 < 0 ∨
            (lf.ySize:ℤ) ≤ LFPoint.viewY lf py pz v2) ∧
          x * lf.uSize + u = (LFPoint.viewX lf px pz u2).toNat * lf.uSize + u2 ∧
          y * lf.vSize + v = (LFPoint.viewY lf py pz v2).toNat * lf.vSize + v2 ∧
          (0:ℕ) = 0 ∧ c < lf.image.channels) := by
      rintro v2 hv2 u2 hu2 ⟨hg, hbx, hbY, -, -⟩
      have hu2r : u2 < lf.uSize := List.mem_range.mp hu2
      have hv2r : v2 < lf.vSize := List.mem_range.mp hv2
      have hux : u = u2 := by
        have hmod := congrArg (fun z => z % lf.uSize) hbx
        simp only [Nat.add_comm, Nat.add_mul_mod_self_right] at hmod
        rwa [Nat.mod_eq_of_lt hu, Nat.mod_eq_of_lt hu2r] at hmod
      have hvy : v = v2 := by
        have hmod := congrArg (fun z => z % lf.vSize) hbY
        simp only [Nat.add_comm, Nat.add_mul_mod_self_right] at hmod
        rwa [Nat.mod_eq_of_lt hv, Nat.mod_eq_of_lt hv2r] at hmod
      subst hux
      subst hvy
      exact hg hout
    show (LFPoint.apply lf px py pz).image.data (x * lf.uSize + u) (y * lf.vSize + v) 0 c
      = lf.image.data (x * lf.uSize + u) (y * lf.vSize + v) 0 c
    unfold LFPoint.apply
    exact foldl_row_pres lf px py pz (x * lf.uSize + u) (y * lf.vSize + v) 0 c
      (List.range lf.vSize) lf.image.data hnm

/-- Witness for C7 at lfMark with point (1/2, 1/2, 0): the cell
(0, 0, 1, 0) lies in frame 1 and is never marked, and the operation leaves
it unchanged. -/
theorem LFPoint.frame_effect_witness :
    (¬ LFPoint.marks lfMark (1/2) (1/2) 0 0 0 1 0) ∧
    (LFPoint.apply lfMark (1/2) (1/2) 0).image.data 0 0 1 0
      = lfMark.image.data 0 0 1 0 := by
  have hm : ¬ LFPoint.marks lfMark (1/2) (1/2) 0 0 0 1 0 := by
    simp [LFPoint.marks]
  exact ⟨hm, (LFPoint.frame_effect lfMark (1/2) (1/2) 0).1 0 0 1 0 hm⟩

/-- A concrete light field for the C7 counterexample: an 8x1 buffer with
lenslet 2x1, so spatial size 4x1, one channel, all zero. -/
def lfSkew : LightField :=
  ⟨⟨8, 1, 1, 1, fun _ _ _ _ => 0⟩, 2, 1⟩

/-- C7 counterexample: for the point (1/10, 1/5, 1/2) and view (0, 0) of
lfSkew, the projected pixel in the claim's sense is
x = round((px + pz*pu)*X) = round(-3/5) = -1, which lies outside [0,X), so
the claim requires the view to be left completely unmodified; but the code
truncates (−3/5 + 1/2) toward zero to x = 0 and marks the view's pixel
(0,0), changing the light field at (0, 0, 0, 0) from 0 to 1. -/
theorem LFPoint.round_projection_counterexample :
    round (((1:ℚ)/10 + (1/2) * (((0:ℕ):ℚ) + 1/2 - (lfSkew.uSize:ℚ) / 2))
        * (lfSkew.xSize:ℚ)) < 0 ∧
    (LFPoint.apply lfSkew (1/10) (1/5) (1/2)).get 0 0 0 0 0 = 1 ∧
    lfSkew.get 0 0 0 0 0 = 0 := by
  have hfl : (⌊(-(1:ℚ)/10)⌋ : ℤ) = -1 := by
    rw [Int.floor_eq_iff]
    norm_num
  have hceil : (⌈(-(1:ℚ)/10)⌉ : ℤ) = 0 := by
    rw [Int.ceil_eq_iff]
    norm_num
  refine ⟨?_, ?_, rfl⟩
  · norm_num [LightField.xSize, lfSkew, round_eq, hfl]
  · have hvx : LFPoint.viewX lfSkew (1/10) (1/2) 0 = 0 := by
      norm_num [LFPoint.viewX, cCastInt, LightField.xSize, lfSkew, hceil]
    have hvy : LFPoint.viewY lfSkew (1/5) (1/2) 0 = 0 := by
      norm_num [LFPoint.viewY, cCastInt, LightField.ySize, lfSkew]
    have hin : ¬(LFPoint.viewX lfSkew (1/10) (1/2) 0 < 0 ∨
        (lfSkew.xSize:ℤ) ≤ LFPoint.viewX lfSkew (1/10) (1/2) 0 ∨
        LFPoint.viewY lfSkew (1/5) (1/2) 0 < 0 ∨
        (lfSkew.ySize:ℤ) ≤ LFPoint.viewY lfSkew (1/5) (1/2) 0) := by
      rw [hvx, hvy]
      norm_num [LightField.xSize, LightField.ySize, lfSkew]
    have marked := lfpoint_apply_marked lfSkew (1/10) (1/5) (1/2) 0 0 0
      (by norm_num [lfSkew]) (by norm_num [lfSkew]) (by norm_num [lfSkew]) hin
    rw [hvx, hvy] at marked
    show (LFPoint.apply lfSkew (1/10) (1/5) (1/2)).image.data
      (0 * lfSkew.uSize + 0) (0 * lfSkew.vSize + 0) 0 0 = 1
    simpa using marked
